import Mathlib

set_option maxRecDepth 8000

/-!
Verification development for the slope-field generator
(`Slope Field Generator/Slope Field.py`).

The Python source is shallowly embedded as follows.

* Python strings are `List Char`; `str.replace(pat, rep)` (global,
  left-to-right, non-overlapping) is `pyReplace`, implemented with a
  structurally-decreasing fuel so that it is kernel-computable.
* `ti84_to_numpy` is the source's chain of seven `replace` calls, in the
  source's order.
* numpy float values are modelled as `Option ℚ` (`none` = NaN) for the
  exact arithmetic the claims need, and real-valued geometry
  (`sqrt`, `cos`, `sin`) lives in `ℝ`.
* Python's builtin `compile`/`eval` are external to the repository; they
  are abstracted by `EvalOutcome`: a compiled expression either raises at
  evaluation time, evaluates to a bare scalar (an expression mentioning
  neither `x` nor `y`, e.g. `"5"`), or evaluates element-wise over the
  broadcast arrays.  The repository's own control flow around them
  (`safe_slope_func`, `generate_plot`) is embedded exactly: in the source,
  `compile` runs *before* the `try:` block of `generate_plot`, so a
  compile-time failure is modelled as an escaped exception
  (`RenderResult.raised`), while everything inside the `try:` that raises
  becomes the fixed failure payload (`RenderResult.fail`).
-/

namespace SlopeField

/-! ## Python `str.replace` on `List Char` -/

/-- One pass of Python `s.replace(pat, rep)`: scan left to right, replace
non-overlapping occurrences.  `fuel` bounds the recursion; one unit of fuel
is spent per step and every step consumes at least one character, so
`fuel = s.length` is always enough.  (Python's empty-pattern behaviour is
irrelevant here: all seven patterns of the source are nonempty, and the
guard makes the empty pattern act as the identity.) -/
def replaceFuel (pat rep : List Char) : Nat → List Char → List Char
  | _, [] => []
  | 0, s => s
  | fuel+1, c :: rest =>
    if pat ≠ [] ∧ pat.isPrefixOf (c :: rest) then
      rep ++ replaceFuel pat rep fuel ((c :: rest).drop pat.length)
    else
      c :: replaceFuel pat rep fuel rest

/-- Python `s.replace(pat, rep)`. -/
def pyReplace (s pat rep : List Char) : List Char :=
  replaceFuel pat rep s.length s

lemma replaceFuel_fuel_inv (pat rep : List Char) :
    ∀ (f₁ : Nat) (s : List Char) (f₂ : Nat), s.length ≤ f₁ → s.length ≤ f₂ →
      replaceFuel pat rep f₁ s = replaceFuel pat rep f₂ s := by
  intro f₁
  induction f₁ with
  | zero =>
    intro s f₂ h₁ _
    have hs : s = [] := List.length_eq_zero.mp (Nat.le_zero.mp h₁)
    subst hs
    cases f₂ <;> rfl
  | succ n ih =>
    intro s f₂ h₁ h₂
    cases s with
    | nil => cases f₂ <;> rfl
    | cons c rest =>
      cases f₂ with
      | zero => simp at h₂
      | succ m =>
        simp only [replaceFuel]
        by_cases h : pat ≠ [] ∧ pat.isPrefixOf (c :: rest)
        · rw [if_pos h, if_pos h]
          congr 1
          have hplen : 0 < pat.length := List.length_pos.mpr h.1
          have hlen : ((c :: rest).drop pat.length).length ≤ n := by
            simp only [List.length_drop, List.length_cons]
            simp only [List.length_cons] at h₁
            omega
          have hlen2 : ((c :: rest).drop pat.length).length ≤ m := by
            simp only [List.length_drop, List.length_cons]
            simp only [List.length_cons] at h₂
            omega
          exact ih _ _ hlen hlen2
        · rw [if_neg h, if_neg h]
          congr 1
          simp only [List.length_cons] at h₁ h₂
          exact ih _ _ (by omega) (by omega)

lemma pyReplace_nil (pat rep : List Char) : pyReplace [] pat rep = [] := rfl

/-- Unfolding `pyReplace` at a match. -/
lemma pyReplace_pos (pat rep s : List Char) (hp : pat ≠ []) (h : pat <+: s) :
    pyReplace s pat rep = rep ++ pyReplace (s.drop pat.length) pat rep := by
  cases s with
  | nil =>
    exfalso
    have := h.length_le
    have : pat = [] := List.length_eq_zero.mp (by simpa using this)
    exact hp this
  | cons c rest =>
    have hb : pat.isPrefixOf (c :: rest) := List.isPrefixOf_iff_prefix.mpr h
    show replaceFuel pat rep (c :: rest).length (c :: rest) = _
    simp only [List.length_cons, replaceFuel, if_pos (And.intro hp hb)]
    congr 1
    have hplen : 0 < pat.length := List.length_pos.mpr hp
    apply replaceFuel_fuel_inv
    · simp only [List.length_drop, List.length_cons]; omega
    · exact le_rfl

/-- Unfolding `pyReplace` at a non-match. -/
lemma pyReplace_neg (pat rep : List Char) (c : Char) (rest : List Char)
    (h : ¬ pat <+: (c :: rest)) :
    pyReplace (c :: rest) pat rep = c :: pyReplace rest pat rep := by
  have hb : ¬ (pat ≠ [] ∧ pat.isPrefixOf (c :: rest)) := by
    rintro ⟨-, hpre⟩
    exact h (List.isPrefixOf_iff_prefix.mp hpre)
  show replaceFuel pat rep (c :: rest).length (c :: rest) = _
  simp only [List.length_cons, replaceFuel, if_neg hb]
  rfl

/-! ## Splitting prefixes across an append -/

lemma pfx_append_cases :
    ∀ (A p B : List Char), p <+: A ++ B →
      p <+: A ∨ (A <+: p ∧ p.drop A.length <+: B) := by
  intro A
  induction A with
  | nil =>
    intro p B h
    right
    exact ⟨List.nil_prefix, by simpa using h⟩
  | cons a A ih =>
    intro p B h
    cases p with
    | nil => left; exact List.nil_prefix
    | cons x p' =>
      rw [List.cons_append, List.cons_prefix_cons] at h
      obtain ⟨hxa, hp'⟩ := h
      rcases ih p' B hp' with h1 | ⟨h2, h3⟩
      · left
        rw [List.cons_prefix_cons]
        exact ⟨hxa, h1⟩
      · right
        constructor
        · rw [List.cons_prefix_cons]
          exact ⟨hxa.symm, h2⟩
        · simpa using h3

/-! ## Distributing `pyReplace` over an append with no crossing match -/

/-- No occurrence of `pat` straddles the boundary between `A` and `B`. -/
def NoCross (pat A B : List Char) : Prop :=
  ∀ u v, pat = u ++ v → u ≠ [] → v ≠ [] → u <:+ A → ¬ v <+: B

lemma noCross_of_suffix {pat A A' B : List Char} (h : NoCross pat A B)
    (hsuf : A' <:+ A) : NoCross pat A' B := by
  intro u v he hu hv husuf
  exact h u v he hu hv (husuf.trans hsuf)

lemma replace_append_aux (pat rep : List Char) (hp : pat ≠ []) :
    ∀ (n : Nat) (A B : List Char), A.length ≤ n → NoCross pat A B →
      pyReplace (A ++ B) pat rep = pyReplace A pat rep ++ pyReplace B pat rep := by
  intro n
  induction n with
  | zero =>
    intro A B hA _
    have : A = [] := List.length_eq_zero.mp (Nat.le_zero.mp hA)
    subst this
    simp [pyReplace_nil]
  | succ n ih =>
    intro A B hA hnc
    cases A with
    | nil => simp [pyReplace_nil]
    | cons c A' =>
      have key : pat <+: (c :: A') ++ B → pat <+: (c :: A') := by
        intro hpre
        rcases pfx_append_cases (c :: A') pat B hpre with h1 | ⟨h2, h3⟩
        · exact h1
        · obtain ⟨t, ht⟩ := h2
          cases t with
          | nil => rw [← ht, List.append_nil]
          | cons d t' =>
            exfalso
            refine hnc (c :: A') (d :: t') ht.symm (by simp) (by simp)
              (List.suffix_refl _) ?_
            have hd : pat.drop (c :: A').length = d :: t' := by
              rw [← ht, List.drop_left]
            rwa [hd] at h3
      by_cases hpre : pat <+: (c :: A') ++ B
      · have hpA : pat <+: (c :: A') := key hpre
        have hlen : pat.length ≤ (c :: A').length := hpA.length_le
        rw [pyReplace_pos pat rep _ hp hpre, pyReplace_pos pat rep _ hp hpA,
          List.drop_append_of_le_length hlen]
        have hplen : 0 < pat.length := List.length_pos.mpr hp
        rw [ih ((c :: A').drop pat.length) B
          (by simp only [List.length_drop, List.length_cons]
              simp only [List.length_cons] at hA
              omega)
          (noCross_of_suffix hnc (List.drop_suffix _ _))]
        simp [List.append_assoc]
      · have hpA : ¬ pat <+: (c :: A') := fun hh =>
          hpre (hh.trans (List.prefix_append _ B))
        rw [List.cons_append, pyReplace_neg pat rep c (A' ++ B)
            (by rwa [List.cons_append] at hpre),
          pyReplace_neg pat rep c A' hpA]
        rw [ih A' B (by simp only [List.length_cons] at hA; omega)
          (noCross_of_suffix hnc (List.suffix_cons c A'))]
        simp

lemma replace_append (pat rep : List Char) (hp : pat ≠ []) (A B : List Char)
    (hnc : NoCross pat A B) :
    pyReplace (A ++ B) pat rep = pyReplace A pat rep ++ pyReplace B pat rep :=
  replace_append_aux pat rep hp A.length A B le_rfl hnc

/-! ## Decidable crossing-freeness for a finite chunk alphabet -/

/-- Can `v` be a prefix of `l.join` for some list of chunks drawn from `S`?
Conservative (may answer `true` spuriously), and exact enough in the
`false` direction, which is the only one used. -/
def canPre (S : List (List Char)) : Nat → List Char → Bool
  | _, [] => true
  | 0, _ :: _ => true
  | f+1, v =>
    S.any fun C =>
      v.isPrefixOf C || (!C.isEmpty && C.isPrefixOf v && canPre S f (v.drop C.length))

lemma canPre_sound (S : List (List Char)) (hS : [] ∉ S) :
    ∀ (f : Nat) (v : List Char), v ≠ [] → v.length ≤ f →
      canPre S f v = false →
      ∀ l : List (List Char), (∀ C ∈ l, C ∈ S) → ¬ v <+: l.flatten := by
  intro f
  induction f with
  | zero =>
    intro v hv hlen _
    exact absurd (List.length_eq_zero.mp (Nat.le_zero.mp hlen)) hv
  | succ f ih =>
    intro v hv hlen hfalse l hl hpre
    cases l with
    | nil =>
      simp only [List.flatten_nil] at hpre
      exact hv (List.prefix_nil.mp hpre)
    | cons C l' =>
      have hC : C ∈ S := hl C (by simp)
      have hCne : C ≠ [] := fun h => hS (h ▸ hC)
      have hany := hfalse
      simp only [canPre, List.any_eq_false] at hany
      have hfacts : ¬ v <+: C ∧
          (¬ C = [] → C <+: v → canPre S f (v.drop C.length) = false) := by
        simpa using hany C hC
      obtain ⟨hvCp, hrest⟩ := hfacts
      have hjoin : (C :: l').flatten = C ++ l'.flatten := by simp
      rw [hjoin] at hpre
      rcases pfx_append_cases C v l'.flatten hpre with h1 | ⟨h2, h3⟩
      · exact hvCp h1
      · -- C <+: v, so recurse on v.drop C.length
        have hdropne : v.drop C.length ≠ [] := by
          intro hdrop
          have hlenle : v.length ≤ C.length := by
            have := congrArg List.length hdrop
            simp only [List.length_drop, List.length_nil] at this
            omega
          have hCv : C = v := List.IsPrefix.eq_of_length_le h2 hlenle
          exact hvCp (hCv ▸ List.prefix_refl _)
        have hcanPre : canPre S f (v.drop C.length) = false := hrest hCne h2
        have hCpos : 0 < C.length := List.length_pos.mpr hCne
        exact ih (v.drop C.length) hdropne
          (by simp only [List.length_drop]; omega) hcanPre l'
          (fun D hD => hl D (by simp [hD])) h3

/-- All ways to split `pat` into two nonempty pieces. -/
def splitsOf (pat : List Char) : List (List Char × List Char) :=
  (List.range pat.length).filterMap fun i =>
    if i = 0 then none else some (pat.take i, pat.drop i)

lemma splitsOf_complete (pat u v : List Char) (he : pat = u ++ v)
    (hu : u ≠ []) (hv : v ≠ []) : (u, v) ∈ splitsOf pat := by
  have hul : 0 < u.length := List.length_pos.mpr hu
  have hvl : 0 < v.length := List.length_pos.mpr hv
  have hlen : pat.length = u.length + v.length := by simp [he]
  simp only [splitsOf, List.mem_filterMap, List.mem_range]
  refine ⟨u.length, by omega, ?_⟩
  rw [if_neg (by omega)]
  subst he
  rw [List.take_left, List.drop_left]

/-- Decidable check: no occurrence of `pat` can straddle a boundary in a
concatenation of chunks drawn from `S`. -/
def SafeS (S : List (List Char)) (pat : List Char) : Bool :=
  (splitsOf pat).all fun uv =>
    (S.all fun C => !(uv.1.isSuffixOf C)) || !(canPre S uv.2.length uv.2)

lemma safeS_no_straddle (S : List (List Char)) (pat : List Char)
    (hS : [] ∉ S) (hsafe : SafeS S pat = true) :
    ∀ u v, pat = u ++ v → u ≠ [] → v ≠ [] →
      ∀ C₀ ∈ S, u <:+ C₀ →
      ∀ l : List (List Char), (∀ C ∈ l, C ∈ S) → ¬ v <+: l.flatten := by
  intro u v he hu hv C₀ hC₀ husuf l hl hpre
  have hmem : (u, v) ∈ splitsOf pat := splitsOf_complete pat u v he hu hv
  simp only [SafeS, List.all_eq_true] at hsafe
  have h := hsafe (u, v) hmem
  rcases Bool.or_eq_true_iff.mp h with h1 | h2
  · simp only [List.all_eq_true] at h1
    have := h1 C₀ hC₀
    simp only [Bool.not_eq_true'] at this
    rw [← List.isSuffixOf_iff_suffix] at husuf
    rw [husuf] at this
    simp at this
  · simp only [Bool.not_eq_true'] at h2
    exact canPre_sound S hS v.length v hv le_rfl h2 l hl hpre

/-- `pyReplace` distributes over a concatenation of chunks from a safe
alphabet: the global replace equals the chunkwise replace. -/
lemma replace_flatten (pat rep : List Char) (hp : pat ≠ [])
    (S : List (List Char)) (hS : [] ∉ S) (hsafe : SafeS S pat = true) :
    ∀ l : List (List Char), (∀ C ∈ l, C ∈ S) →
      pyReplace l.flatten pat rep = (l.map fun C => pyReplace C pat rep).flatten := by
  intro l
  induction l with
  | nil => intro _; simp [pyReplace_nil]
  | cons C l ih =>
    intro hmem
    have hC : C ∈ S := hmem C (by simp)
    have hrest : ∀ D ∈ l, D ∈ S := fun D hD => hmem D (by simp [hD])
    have hjoin : (C :: l).flatten = C ++ l.flatten := by simp
    rw [hjoin, replace_append pat rep hp C l.flatten ?nc, ih hrest]
    · simp
    case nc =>
      intro u v he hu hv husuf
      exact safeS_no_straddle S pat hS hsafe u v he hu hv C hC husuf l hrest

/-! ## The source's `ti84_to_numpy` translator -/

def patCaret : List Char := ['^']
def repPow : List Char := ['*', '*']
def patSin : List Char := ['s', 'i', 'n']
def repSin : List Char := ['n', 'p', '.', 's', 'i', 'n']
def patCos : List Char := ['c', 'o', 's']
def repCos : List Char := ['n', 'p', '.', 'c', 'o', 's']
def patTan : List Char := ['t', 'a', 'n']
def repTan : List Char := ['n', 'p', '.', 't', 'a', 'n']
def patLog : List Char := ['l', 'o', 'g']
def repLog : List Char := ['n', 'p', '.', 'l', 'o', 'g', '1', '0']
def patLn : List Char := ['l', 'n']
def repLn : List Char := ['n', 'p', '.', 'l', 'o', 'g']
def patSqrt : List Char := ['s', 'q', 'r', 't']
def repSqrt : List Char := ['n', 'p', '.', 's', 'q', 'r', 't']

/-- The `"np."` namespace marker. -/
def npDot : List Char := ['n', 'p', '.']

/-- `ti84_to_numpy` from the source, on character lists: the chain of the
seven `replace` calls, in the source's order
(`^`, `sin`, `cos`, `tan`, `log`, `ln`, `sqrt`). -/
def ti84chars (s : List Char) : List Char :=
  pyReplace (pyReplace (pyReplace (pyReplace (pyReplace (pyReplace (pyReplace
    s patCaret repPow) patSin repSin) patCos repCos) patTan repTan)
    patLog repLog) patLn repLn) patSqrt repSqrt

/-- `ti84_to_numpy` from the source, on Python strings. -/
def ti84_to_numpy (expr : String) : String :=
  String.mk (ti84chars expr.data)

/-! ## The calculator token alphabet of the spec's grammar -/

/-- One token of a raw calculator expression: a recognized function name,
the power operator, a variable, a digit, a parenthesis, an arithmetic
operator, or a space. -/
inductive Tok where
  | fsin | fcos | ftan | flog | fln | fsqrt
  | caret | varx | vary | lpar | rpar
  | plus | minus | star | slash | space
  | digit (d : Fin 10)
  deriving DecidableEq

/-- The characters of one token. -/
def tokStr : Tok → List Char
  | .fsin => ['s', 'i', 'n']
  | .fcos => ['c', 'o', 's']
  | .ftan => ['t', 'a', 'n']
  | .flog => ['l', 'o', 'g']
  | .fln => ['l', 'n']
  | .fsqrt => ['s', 'q', 'r', 't']
  | .caret => ['^']
  | .varx => ['x']
  | .vary => ['y']
  | .lpar => ['(']
  | .rpar => [')']
  | .plus => ['+']
  | .minus => ['-']
  | .star => ['*']
  | .slash => ['/']
  | .space => [' ']
  | .digit d => [Char.ofNat (48 + d.val)]

/-- A raw expression over the grammar is the concatenation of its tokens. -/
def render (toks : List Tok) : List Char := (toks.map tokStr).flatten

/-- Every token. -/
def allToks : List Tok :=
  [.fsin, .fcos, .ftan, .flog, .fln, .fsqrt, .caret, .varx, .vary,
   .lpar, .rpar, .plus, .minus, .star, .slash, .space] ++
  (List.finRange 10).map Tok.digit

lemma allToks_complete : ∀ t : Tok, t ∈ allToks := by
  intro t
  cases t <;> simp [allToks, List.mem_finRange]

/-- The shape of one token's characters after each successive `replace`
pass: pass 1 rewrites `^`, pass 2 `sin`, …, pass 7 `sqrt`. -/
def chunk1 (t : Tok) : List Char := pyReplace (tokStr t) patCaret repPow
def chunk2 (t : Tok) : List Char := pyReplace (chunk1 t) patSin repSin
def chunk3 (t : Tok) : List Char := pyReplace (chunk2 t) patCos repCos
def chunk4 (t : Tok) : List Char := pyReplace (chunk3 t) patTan repTan
def chunk5 (t : Tok) : List Char := pyReplace (chunk4 t) patLog repLog
def chunk6 (t : Tok) : List Char := pyReplace (chunk5 t) patLn repLn
def chunk7 (t : Tok) : List Char := pyReplace (chunk6 t) patSqrt repSqrt

lemma map_chunk_mem (f : Tok → List Char) (toks : List Tok) :
    ∀ C ∈ toks.map f, C ∈ allToks.map f := by
  intro C hC
  obtain ⟨t, _, rfl⟩ := List.mem_map.mp hC
  exact List.mem_map.mpr ⟨t, allToks_complete t, rfl⟩

/-- One pass of the translator, chunkwise, over a rendered token string. -/
lemma pass_step (f g : Tok → List Char) (pat rep : List Char)
    (hp : pat ≠ []) (hne : [] ∉ allToks.map f)
    (hsafe : SafeS (allToks.map f) pat = true)
    (hg : ∀ t, g t = pyReplace (f t) pat rep) (toks : List Tok) :
    pyReplace (toks.map f).flatten pat rep = (toks.map g).flatten := by
  rw [replace_flatten pat rep hp (allToks.map f) hne hsafe (toks.map f)
    (map_chunk_mem f toks)]
  congr 1
  rw [List.map_map]
  exact List.map_congr_left fun t _ => (hg t).symm

/-- Through all seven passes, the translation of a token string is the
concatenation of the per-token translations. -/
lemma ti84_render (toks : List Tok) :
    ti84chars (render toks) = (toks.map chunk7).flatten := by
  show pyReplace (pyReplace (pyReplace (pyReplace (pyReplace (pyReplace
      (pyReplace (toks.map tokStr).flatten patCaret repPow) patSin repSin)
      patCos repCos) patTan repTan) patLog repLog) patLn repLn)
      patSqrt repSqrt = _
  rw [pass_step tokStr chunk1 patCaret repPow (by decide) (by decide)
    (by decide) (fun t => rfl) toks]
  rw [pass_step chunk1 chunk2 patSin repSin (by decide) (by decide)
    (by decide) (fun t => rfl) toks]
  rw [pass_step chunk2 chunk3 patCos repCos (by decide) (by decide)
    (by decide) (fun t => rfl) toks]
  rw [pass_step chunk3 chunk4 patTan repTan (by decide) (by decide)
    (by decide) (fun t => rfl) toks]
  rw [pass_step chunk4 chunk5 patLog repLog (by decide) (by decide)
    (by decide) (fun t => rfl) toks]
  rw [pass_step chunk5 chunk6 patLn repLn (by decide) (by decide)
    (by decide) (fun t => rfl) toks]
  rw [pass_step chunk6 chunk7 patSqrt repSqrt (by decide) (by decide)
    (by decide) (fun t => rfl) toks]

lemma drop_append_right (C X : List Char) (i : Nat) (h : C.length ≤ i) :
    (C ++ X).drop i = X.drop (i - C.length) := by
  conv_lhs => rw [show i = C.length + (i - C.length) by omega]
  rw [List.drop_append]

/-- Within-chunk check: every occurrence of `pat` inside chunk `C` sits at
least three characters in, preceded there by `np.`. -/
def nsOk (pat C : List Char) : Bool :=
  (List.range (C.length + 1)).all fun i =>
    !(pat.isPrefixOf (C.drop i)) ||
      (decide (3 ≤ i) && ((npDot ++ pat).isPrefixOf (C.drop (i - 3))))

/-- In a concatenation of chunks from a safe alphabet whose chunks pass
`nsOk`, every occurrence of `pat` is preceded by `np.`. -/
lemma flatten_ns (pat : List Char) (hp : pat ≠ []) (S : List (List Char))
    (hS : [] ∉ S) (hsafe : SafeS S pat = true)
    (hns : (S.all fun C => nsOk pat C) = true) :
    ∀ l : List (List Char), (∀ C ∈ l, C ∈ S) → ∀ i : Nat,
      pat <+: l.flatten.drop i →
      3 ≤ i ∧ (npDot ++ pat) <+: l.flatten.drop (i - 3) := by
  intro l
  induction l with
  | nil =>
    intro _ i hocc
    exfalso
    simp only [List.flatten_nil, List.drop_nil] at hocc
    exact hp (List.prefix_nil.mp hocc)
  | cons C l' ih =>
    intro hmem i hocc
    have hC : C ∈ S := hmem C (by simp)
    have hrest : ∀ D ∈ l', D ∈ S := fun D hD => hmem D (by simp [hD])
    have hjoin : (C :: l').flatten = C ++ l'.flatten := by simp
    rw [hjoin] at hocc ⊢
    by_cases hi : C.length ≤ i
    · -- the occurrence lies beyond `C`: recurse
      rw [drop_append_right C l'.flatten i hi] at hocc
      obtain ⟨h3, hpre⟩ := ih hrest (i - C.length) hocc
      refine ⟨by omega, ?_⟩
      rw [drop_append_right C l'.flatten (i - 3) (by omega)]
      have : i - 3 - C.length = i - C.length - 3 := by omega
      rwa [this]
    · -- the occurrence starts inside `C`
      push_neg at hi
      rw [List.drop_append_of_le_length (le_of_lt hi)] at hocc
      by_cases hcont : pat <+: C.drop i
      · -- contained in `C`: use the chunk-level check
        have hns' : nsOk pat C = true := by
          simp only [List.all_eq_true] at hns
          exact hns C hC
        simp only [nsOk, List.all_eq_true, List.mem_range] at hns'
        have hcase := hns' i (by omega)
        rw [List.isPrefixOf_iff_prefix.mpr hcont] at hcase
        simp only [Bool.not_true, Bool.false_or, Bool.and_eq_true,
          decide_eq_true_eq] at hcase
        obtain ⟨h3le, hnppre⟩ := hcase
        rw [List.isPrefixOf_iff_prefix] at hnppre
        refine ⟨h3le, ?_⟩
        rw [List.drop_append_of_le_length (by omega)]
        exact hnppre.trans (List.prefix_append _ _)
      · -- would straddle the boundary: impossible on a safe alphabet
        exfalso
        rcases pfx_append_cases (C.drop i) pat l'.flatten hocc with h1 | ⟨h2, h3⟩
        · exact hcont h1
        have hu : C.drop i ≠ [] := by
          rw [Ne, List.drop_eq_nil_iff]
          omega
        have hveq : pat = C.drop i ++ pat.drop (C.drop i).length := by
          have htake := List.prefix_iff_eq_take.mp h2
          conv_lhs => rw [← List.take_append_drop (C.drop i).length pat]
          rw [← htake]
        have hv : pat.drop (C.drop i).length ≠ [] := by
          intro hdrop
          have hlenle : pat.length ≤ (C.drop i).length :=
            List.drop_eq_nil_iff.mp hdrop
          have hCv : C.drop i = pat := List.IsPrefix.eq_of_length_le h2 hlenle
          exact hcont (by rw [hCv])
        exact safeS_no_straddle S pat hS hsafe (C.drop i)
          (pat.drop (C.drop i).length) hveq hu hv C hC (List.drop_suffix i C)
          l' hrest h3

/-! ## Claim C4 and C5 theorems -/

/-- C4: `ti84_to_numpy` performs exactly the seven literal global one-pass
substring substitutions, in the fixed source order `^`→`**`, `sin`→`np.sin`,
`cos`→`np.cos`, `tan`→`np.tan`, `log`→`np.log10`, `ln`→`np.log`,
`sqrt`→`np.sqrt`; in particular `"x^2 + sin(x)"` translates to
`"x**2 + np.sin(x)"`. -/
theorem ti84_translation_order_and_example :
    (∀ s : String, ti84_to_numpy s = String.mk (pyReplace (pyReplace
      (pyReplace (pyReplace (pyReplace (pyReplace (pyReplace s.data
      patCaret repPow) patSin repSin) patCos repCos) patTan repTan)
      patLog repLog) patLn repLn) patSqrt repSqrt))
  ∧ ti84_to_numpy "x^2 + sin(x)" = "x**2 + np.sin(x)" :=
  ⟨fun _ => rfl, by decide⟩

/-- The six recognized function-name patterns. -/
def fnames : List (List Char) := [patSin, patCos, patTan, patLog, patLn, patSqrt]

/-- C5: on any raw expression over the recognized token grammar, the
translator's output contains no literal `^`, and every occurrence of
`sin`, `cos`, `tan`, `log`, `ln` or `sqrt` in the output is immediately
preceded by the namespace marker `np.`. -/
theorem ti84_output_caret_free_and_namespaced (toks : List Tok) :
    '^' ∉ ti84chars (render toks) ∧
    ∀ fn ∈ fnames, ∀ i : Nat, fn <+: (ti84chars (render toks)).drop i →
      3 ≤ i ∧ (npDot ++ fn) <+: (ti84chars (render toks)).drop (i - 3) := by
  rw [ti84_render]
  constructor
  · intro hmem
    rw [List.mem_flatten] at hmem
    obtain ⟨C, hC, hcar⟩ := hmem
    have hC' : C ∈ allToks.map chunk7 := map_chunk_mem chunk7 toks C hC
    have hnone : ∀ D ∈ allToks.map chunk7, '^' ∉ D := by decide
    exact hnone C hC' hcar
  · intro fn hfn i hocc
    have hfn' : fn = patSin ∨ fn = patCos ∨ fn = patTan ∨ fn = patLog ∨
        fn = patLn ∨ fn = patSqrt := by
      simpa [fnames] using hfn
    have hmem := map_chunk_mem chunk7 toks
    rcases hfn' with rfl | rfl | rfl | rfl | rfl | rfl
    · exact flatten_ns patSin (by decide) (allToks.map chunk7) (by decide)
        (by decide) (by decide) (toks.map chunk7) hmem i hocc
    · exact flatten_ns patCos (by decide) (allToks.map chunk7) (by decide)
        (by decide) (by decide) (toks.map chunk7) hmem i hocc
    · exact flatten_ns patTan (by decide) (allToks.map chunk7) (by decide)
        (by decide) (by decide) (toks.map chunk7) hmem i hocc
    · exact flatten_ns patLog (by decide) (allToks.map chunk7) (by decide)
        (by decide) (by decide) (toks.map chunk7) hmem i hocc
    · exact flatten_ns patLn (by decide) (allToks.map chunk7) (by decide)
        (by decide) (by decide) (toks.map chunk7) hmem i hocc
    · exact flatten_ns patSqrt (by decide) (allToks.map chunk7) (by decide)
        (by decide) (by decide) (toks.map chunk7) hmem i hocc

/-- Witness for C5 at the concrete expression `sin`: the occurrence of
`sin` in `ti84_to_numpy "sin" = "np.sin"` sits at index 3, preceded by
`np.`. -/
theorem ti84_output_caret_free_and_namespaced_witness :
    '^' ∉ ti84chars (render [Tok.fsin]) ∧
    (3 ≤ 3 ∧ (npDot ++ patSin) <+: (ti84chars (render [Tok.fsin])).drop (3 - 3)) := by
  refine ⟨(ti84_output_caret_free_and_namespaced [Tok.fsin]).1, ?_⟩
  exact (ti84_output_caret_free_and_namespaced [Tok.fsin]).2 patSin
    (by decide) 3 (by decide)

/-! ## numpy values, arrays and the expression evaluator -/

/-- A numpy float value: `none` is NaN, `some q` a finite value. -/
abbrev Val := Option ℚ

/-- A 2-D numpy array of floats. -/
abbrev Arr2 := List (List Val)

/-- What Python `eval` of a compiled numpy expression can return when the
variables `x`, `y` are bound to 2-D arrays: a bare scalar (the expression
mentions neither `x` nor `y`, e.g. `"5"`), or an array. -/
inductive PyVal where
  | scalar (c : Val)
  | arr (a : Arr2)
  deriving DecidableEq

/-- Abstraction of a compiled expression (`compile(expr, "<string>",
"eval")` in the source).  Evaluating it against array-valued `x`, `y`
either raises a runtime exception (e.g. a `NameError`), returns a bare
scalar, or evaluates element-wise over the broadcast arrays, where the
per-point function already reflects numpy's quiet domain behaviour
(invalid points become NaN, not exceptions). -/
inductive EvalOutcome where
  | raises (msg : String)
  | scalar (c : Val)
  | elementwise (g : Val → Val → Val)

/-- Element-wise application over same-shaped 2-D arrays. -/
def map2 (g : Val → Val → Val) (x y : Arr2) : Arr2 :=
  List.zipWith (List.zipWith g) x y

/-- Python `eval(compiled, {"np": np, "x": x_arr, "y": y_arr})`. -/
def evalCompiled : EvalOutcome → Arr2 → Arr2 → Except String PyVal
  | .raises m, _, _ => .error m
  | .scalar c, _, _ => .ok (.scalar c)
  | .elementwise g, x, y => .ok (.arr (map2 g x y))

/-- `np.full_like(x, np.nan, dtype=np.float64)`: a NaN array of `x`'s
shape. -/
def full_like (x : Arr2) : Arr2 :=
  x.map (List.map fun _ => (none : Val))

/-- The inner `func(x, y)` of the source's `safe_slope_func`: evaluate the
compiled expression; on any exception, log and return a NaN array matching
`x`'s shape (the `try`/`except` of lines 24-30). -/
def slope_eval (o : EvalOutcome) (x y : Arr2) : PyVal :=
  match evalCompiled o x y with
  | .ok v => v
  | .error _ => .arr (full_like x)

/-- `safe_slope_func(expr)` from the source: `compile` the expression —
NOT inside any `try`, so a compile failure propagates to the caller — and
return the guarded evaluator.  The Python `compile` builtin is abstracted
by the `compileFn` parameter. -/
def safe_slope_func (compileFn : String → Except String EvalOutcome)
    (expr : String) : Except String (Arr2 → Arr2 → PyVal) :=
  (compileFn expr).map slope_eval

/-- Row-length profile of a 2-D array. -/
def shape (a : Arr2) : List Nat := a.map List.length

/-- The array has `m` rows each of length `n`. -/
def isShape (a : Arr2) (m n : Nat) : Prop :=
  a.length = m ∧ ∀ r ∈ a, r.length = n

/-- Entry access `a[i][j]`. -/
def entry {α : Type} (a : List (List α)) (i j : Nat) : Option α :=
  (a.get? i).bind fun r => r.get? j

/-- `np.isnan(V).all()` for an array (vacuously true on empty input, as in
numpy). -/
def allNaNArr (a : Arr2) : Bool :=
  a.all fun r => r.all fun v => v.isNone

/-- `np.isnan(V).all()` for an eval result. -/
def allNaN : PyVal → Bool
  | .scalar c => c.isNone
  | .arr a => allNaNArr a

/-- NaN-propagating binary minimum (numpy `min` over floats: any NaN
poisons the result). -/
def combMin (a b : Val) : Val :=
  match a, b with
  | some x, some y => some (min x y)
  | _, _ => none

/-- NaN-propagating binary maximum. -/
def combMax (a b : Val) : Val :=
  match a, b with
  | some x, some y => some (max x y)
  | _, _ => none

/-- `np.min` over a flat list of values (NaN-propagating). -/
def npMin : List Val → Val
  | [] => none
  | h :: t => t.foldl combMin h

/-- `np.max` over a flat list of values (NaN-propagating). -/
def npMax : List Val → Val
  | [] => none
  | h :: t => t.foldl combMax h

/-- The flat list of values of an eval result. -/
def pvList : PyVal → List Val
  | .scalar c => [c]
  | .arr a => a.flatten

/-- Minimum over the finite (non-NaN) entries only. -/
def finiteMin (l : List Val) : Val :=
  match l.filterMap id with
  | [] => none
  | h :: t => some (t.foldl min h)

/-- Maximum over the finite (non-NaN) entries only. -/
def finiteMax (l : List Val) : Val :=
  match l.filterMap id with
  | [] => none
  | h :: t => some (t.foldl max h)

/-! ## The renderer `generate_plot` -/

/-- The fixed failure payload of the source's `except` branch: the
diagnostic text drawn centered, with the tick lists cleared. -/
structure FailurePayload where
  message : String
  xticks : List ℚ
  yticks : List ℚ
  deriving DecidableEq

/-- The failure payload the source always produces. -/
def failurePayload : FailurePayload :=
  { message := "Error: Invalid function\nUse TI-84 style syntax like x^2 + sin(x)"
    xticks := []
    yticks := [] }

/-- The success payload: the scalar field and the color-scale bounds
`Normalize(vmin=np.min(V), vmax=np.max(V))` of the source. -/
structure SuccessPayload where
  V : PyVal
  vmin : Val
  vmax : Val
  streamlines : Bool
  title : String
  deriving DecidableEq

/-- Result of one render call.  `raised` means an exception escaped
`generate_plot` itself (nothing was drawn, no payload of either kind). -/
inductive RenderResult where
  | ok (p : SuccessPayload)
  | fail (p : FailurePayload)
  | raised (e : String)
  deriving DecidableEq

/-- Does the non-streamline segment loop (lines 99-102) complete without
raising?  A bare scalar `V` raises `AttributeError` at `V.flatten()`
(Python ints/floats have no `flatten`); and any NaN entry of an array `V`
makes `ye - ys = V_norm` NaN, so
`alpha = np.clip(abs((ye - ys)/0.25), 0.2, 1.0)` is NaN, which
`ax.plot(..., alpha=alpha)` rejects with `ValueError` (matplotlib ≥ 3.5,
as the source's `from matplotlib import colormaps` import requires,
validates that alpha lies in the 0-1 range).  Either exception is caught
by the `except` and yields the failure payload.  The loop succeeds exactly
when `V` is an array all of whose entries are finite. -/
def plotSegmentsOk : PyVal → Bool
  | .scalar _ => false
  | .arr a => a.all fun r => r.all fun v => v.isSome

/-- `generate_plot` from the source.  `compileFn` abstracts the Python
`compile` builtin; `grid` abstracts the coordinate-branch grid
construction of lines 40-68 (`.error` = an unsupported selector or other
grid failure raising inside the `try`).  Fidelity notes:
`ti84_to_numpy` and `safe_slope_func` (hence `compile`) run BEFORE the
`try:` block, so a compile error yields `.raised`, not the failure
payload; inside the `try`, an all-NaN field raises
`ValueError("Invalid function syntax")`, caught by the `except` as the
failure payload; the color bounds `Normalize(vmin=np.min(V),
vmax=np.max(V))` are the NaN-propagating extrema, computed before the
branch on `streamplot`; in non-streamline mode the segment loop itself
raises — hence the failure payload — unless `plotSegmentsOk V` (see
there).  The streamline branch's own internal failure modes
(`ax.streamplot` input validation) are outside the model; no claim's
theorem depends on the streamline branch succeeding. -/
def generate_plot (compileFn : String → Except String EvalOutcome)
    (grid : Except String (Arr2 × Arr2)) (expr_raw : String)
    (streamplot : Bool) : RenderResult :=
  match safe_slope_func compileFn (ti84_to_numpy expr_raw) with
  | .error e => .raised e
  | .ok slope_func =>
    match grid with
    | .error _ => .fail failurePayload
    | .ok (X, Y) =>
      let V := slope_func X Y
      if allNaN V then .fail failurePayload
      else
        let payload : SuccessPayload :=
          { V := V
            vmin := npMin (pvList V)
            vmax := npMax (pvList V)
            streamlines := streamplot
            title := "Slope Field for dy/dx = " ++ expr_raw }
        if streamplot then .ok payload
        else if plotSegmentsOk V then .ok payload
        else .fail failurePayload

/-! ## Grid construction (lines 40-68 of the source) -/

/-- The fixed linear step `step = 0.05`. -/
def gridStep : ℚ := 1/20

/-- `np.arange(start, stop, st)`: the values `start + k*st` for
`0 ≤ k < ⌈(stop - start)/st⌉` (idealized to exact rationals). -/
def arange (start stop st : ℚ) : List ℚ :=
  (List.range (Int.toNat ⌈(stop - start) / st⌉)).map
    fun (k : ℕ) => start + (k : ℚ) * st

/-- `np.meshgrid(xs, ys)`: `X[i][j] = xs[j]`, `Y[i][j] = ys[i]`, both of
shape `(len ys, len xs)`. -/
def meshgrid (xs ys : List ℚ) : List (List ℚ) × List (List ℚ) :=
  (ys.map fun _ => xs, ys.map fun yv => xs.map fun _ => yv)

/-- The `"Cartesian"` branch:
`x_vals = np.arange(-x_max, x_max + step, step)` (same for y), then
`np.meshgrid`. -/
def cartesianGrid (x_max y_max : ℚ) : List (List ℚ) × List (List ℚ) :=
  meshgrid (arange (-x_max) (x_max + gridStep) gridStep)
    (arange (-y_max) (y_max + gridStep) gridStep)

/-- The `"Complex Plane"` branch:
`real = np.arange(-x_max, x_max + step, step)`,
`imag = np.arange(-y_max, y_max + step, step)`, then `np.meshgrid`. -/
def complexPlaneGrid (x_max y_max : ℚ) : List (List ℚ) × List (List ℚ) :=
  meshgrid (arange (-x_max) (x_max + gridStep) gridStep)
    (arange (-y_max) (y_max + gridStep) gridStep)

/-- The `"Polar"` branch's radius samples:
`r = np.arange(0.01, x_max, step)`. -/
def polarRadii (x_max : ℚ) : List ℚ :=
  arange (1/100) x_max gridStep

/-- A polar sample point `(r·cosθ, r·sinθ)` (the `"Polar"` branch's
`X, Y = R * np.cos(T), R * np.sin(T)`). -/
noncomputable def polarPoint (r θ : ℝ) : ℝ × ℝ :=
  (r * Real.cos θ, r * Real.sin θ)

/-! ## Segment geometry (lines 73-76 and 99-102 of the source) -/

/-- `np.ones_like(V)`: the fixed x-component `U = 1` at every grid
point. -/
def ones_like (V : Arr2) : Arr2 :=
  V.map (List.map fun _ => (some 1 : Val))

/-- One entry of `length = np.sqrt(U**2 + V**2)`: NaN if either component
is NaN. -/
noncomputable def lenPoint (u v : Val) : Option ℝ :=
  match u, v with
  | some a, some b => some (Real.sqrt ((a : ℝ) ^ 2 + (b : ℝ) ^ 2))
  | _, _ => none

/-- `length = np.sqrt(U**2 + V**2)` with `U = np.ones_like(V)`. -/
noncomputable def lengthField (V : Arr2) : List (List (Option ℝ)) :=
  List.zipWith (List.zipWith lenPoint) (ones_like V) V

/-- `np.clip(x, lo, hi)` on a real number. -/
noncomputable def clipR (x lo hi : ℝ) : ℝ := min (max x lo) hi

/-- The segment alpha of the non-streamline loop for a finite slope value
`v`: `ye - ys = V_norm = 0.25*v/length` with `length = sqrt(1 + v^2)`, and
`alpha = np.clip(abs((ye - ys) / 0.25), 0.2, 1.0)`. -/
noncomputable def alphaOf (v : ℝ) : ℝ :=
  clipR (|(0.25 * v / Real.sqrt ((1 : ℝ) ^ 2 + v ^ 2)) / 0.25|) 0.2 1.0

/-! ## Array helper lemmas -/

lemma get?_zipWith {α β γ : Type} (f : α → β → γ) :
    ∀ (l₁ : List α) (l₂ : List β) (i : Nat),
      (List.zipWith f l₁ l₂).get? i =
        (l₁.get? i).bind fun a => (l₂.get? i).map (f a) := by
  intro l₁
  induction l₁ with
  | nil => intro l₂ i; simp
  | cons a t ih =>
    intro l₂ i
    cases l₂ with
    | nil => simp
    | cons b u =>
      cases i with
      | zero => simp
      | succ j => simpa using ih u j

lemma entry_map2 (g : Val → Val → Val) (x y : Arr2) (i j : Nat)
    (xv yv : Val) (hx : entry x i j = some xv) (hy : entry y i j = some yv) :
    entry (map2 g x y) i j = some (g xv yv) := by
  simp only [entry, Option.bind_eq_some] at hx hy
  obtain ⟨rx, hrx, hjx⟩ := hx
  obtain ⟨ry, hry, hjy⟩ := hy
  simp only [entry, map2, get?_zipWith, hrx, hry, Option.map_some',
    Option.bind_some, Option.some_bind]
  simp only [get?_zipWith, hjx, hjy, Option.map_some', Option.bind_some,
    Option.some_bind]

lemma shape_full_like (x : Arr2) : shape (full_like x) = shape x := by
  simp [shape, full_like, List.map_map, Function.comp_def]

lemma allNaNArr_full_like (x : Arr2) : allNaNArr (full_like x) = true := by
  simp [allNaNArr, full_like, List.all_eq_true]

lemma mem_zipWith {α β γ : Type} (f : α → β → γ) :
    ∀ (l₁ : List α) (l₂ : List β) (c : γ), c ∈ List.zipWith f l₁ l₂ →
      ∃ a b, a ∈ l₁ ∧ b ∈ l₂ ∧ c = f a b := by
  intro l₁
  induction l₁ with
  | nil => intro l₂ c hc; simp at hc
  | cons a t ih =>
    intro l₂ c hc
    cases l₂ with
    | nil => simp at hc
    | cons b u =>
      simp only [List.zipWith_cons_cons, List.mem_cons] at hc
      rcases hc with rfl | hc
      · exact ⟨a, b, by simp, by simp, rfl⟩
      · obtain ⟨a', b', ha, hb, rfl⟩ := ih u c hc
        exact ⟨a', b', by simp [ha], by simp [hb], rfl⟩

lemma isShape_map2 (g : Val → Val → Val) (X Y : Arr2) (m n : Nat)
    (hX : isShape X m n) (hY : isShape Y m n) : isShape (map2 g X Y) m n := by
  obtain ⟨hxl, hxr⟩ := hX
  obtain ⟨hyl, hyr⟩ := hY
  constructor
  · simp [map2, List.length_zipWith, hxl, hyl]
  · intro r hr
    obtain ⟨a, b, ha, hb, rfl⟩ := mem_zipWith (List.zipWith g) X Y r hr
    simp [List.length_zipWith, hxr a ha, hyr b hb]

/-! ## Claims C1, C2, C3, C7, C8 -/

/-- C1 (code bug in the source): when the translated expression fails to
compile, the `SyntaxError` escapes `generate_plot` entirely —
`safe_slope_func` (which calls `compile`) runs on line 37, BEFORE the
`try:` block that starts on line 39 — so the render call does NOT produce
the failure payload; it aborts before any grid or field work, whatever the
grid would have been. -/
theorem compile_error_escapes_generate_plot
    (compileFn : String → Except String EvalOutcome)
    (grid : Except String (Arr2 × Arr2)) (raw : String) (e : String)
    (sp : Bool) (hc : compileFn (ti84_to_numpy raw) = .error e) :
    generate_plot compileFn grid raw sp = .raised e ∧
    (∀ p, generate_plot compileFn grid raw sp ≠ .fail p) ∧
    (∀ q, generate_plot compileFn grid raw sp ≠ .ok q) := by
  have h : generate_plot compileFn grid raw sp = .raised e := by
    simp [generate_plot, safe_slope_func, hc, Except.map]
  refine ⟨h, ?_, ?_⟩
  · intro p
    rw [h]
    simp
  · intro q
    rw [h]
    simp

/-- Witness for C1 at the failing input `"x^2 + sin(x"` (unbalanced
parenthesis): the translated text `"x**2 + np.sin(x"` fails to compile and
the exception escapes the render call. -/
theorem compile_error_escapes_generate_plot_witness :
    generate_plot
      (fun s => if s = "x**2 + np.sin(x" then
          .error "SyntaxError: '(' was never closed"
        else .ok (.scalar none))
      (.ok ([], [])) "x^2 + sin(x" false
      = .raised "SyntaxError: '(' was never closed" := by
  have htrans : ti84_to_numpy "x^2 + sin(x" = "x**2 + np.sin(x" := by decide
  exact (compile_error_escapes_generate_plot _ _ _ _ false (by simp [htrans])).1

/-- C2: the evaluator returned by `safe_slope_func` contains runtime
faults.  If evaluating the compiled expression raises, the evaluator
returns (it never throws — it is a total function) an all-NaN array of
`x`'s shape; when evaluation proceeds element-wise, the entry at `(i,j)`
is exactly the per-point result `g x[i][j] y[i][j]`, so the output is NaN
at precisely the failing points. -/
theorem safe_slope_func_fault_containment
    (compileFn : String → Except String EvalOutcome) (expr : String)
    (o : EvalOutcome) (hc : compileFn expr = .ok o) (x y : Arr2) :
    safe_slope_func compileFn expr = .ok (slope_eval o)
  ∧ (∀ m, evalCompiled o x y = .error m →
      slope_eval o x y = .arr (full_like x) ∧
      shape (full_like x) = shape x ∧ allNaN (.arr (full_like x)) = true)
  ∧ (∀ g, o = .elementwise g →
      slope_eval o x y = .arr (map2 g x y) ∧
      ∀ i j xv yv, entry x i j = some xv → entry y i j = some yv →
        entry (map2 g x y) i j = some (g xv yv)) := by
  refine ⟨by simp [safe_slope_func, hc, Except.map], ?_, ?_⟩
  · intro m hm
    refine ⟨by simp [slope_eval, hm], shape_full_like x, ?_⟩
    simp [allNaN, allNaNArr_full_like]
  · rintro g rfl
    exact ⟨by simp [slope_eval, evalCompiled],
      fun i j xv yv hx hy => entry_map2 g x y i j xv yv hx hy⟩

/-- Witness for C2: a compiled expression that raises globally (a
`NameError`, say) evaluated on a `1×1` grid yields the all-NaN array of
the grid's shape. -/
theorem safe_slope_func_fault_containment_witness :
    slope_eval (.raises "NameError") [[some 1]] [[some 2]]
        = .arr (full_like [[some 1]])
    ∧ shape (full_like [[(some 1 : Val)]]) = shape [[(some 1 : Val)]] := by
  have h := safe_slope_func_fault_containment
    (fun _ => .ok (.raises "NameError")) "x" (.raises "NameError") rfl
    [[some 1]] [[some 2]]
  exact ⟨(h.2.1 "NameError" rfl).1, (h.2.1 "NameError" rfl).2.1⟩

/-- C3: when every entry of the evaluated field is NaN, `generate_plot`
raises `ValueError("Invalid function syntax")` inside the `try:` (line
71), which the `except` turns into the fixed failure payload — never a
success payload. -/
theorem all_nan_yields_failure_payload
    (compileFn : String → Except String EvalOutcome) (o : EvalOutcome)
    (raw : String) (X Y : Arr2) (sp : Bool)
    (hc : compileFn (ti84_to_numpy raw) = .ok o)
    (hv : allNaN (slope_eval o X Y) = true) :
    generate_plot compileFn (.ok (X, Y)) raw sp = .fail failurePayload ∧
    (∀ q, generate_plot compileFn (.ok (X, Y)) raw sp ≠ .ok q) := by
  have h : generate_plot compileFn (.ok (X, Y)) raw sp = .fail failurePayload := by
    simp [generate_plot, safe_slope_func, hc, Except.map, hv]
  refine ⟨h, ?_⟩
  intro q
  rw [h]
  simp

/-- Witness for C3: the always-undefined expression (modelled: every point
evaluates to NaN, like `1/0` does under numpy's division) over a `1×1`
grid produces the failure payload. -/
theorem all_nan_yields_failure_payload_witness :
    generate_plot (fun _ => .ok (.elementwise fun _ _ => none))
      (.ok ([[some 0]], [[some 0]])) "1/0" false = .fail failurePayload := by
  exact (all_nan_yields_failure_payload _ (.elementwise fun _ _ => none)
    "1/0" [[some 0]] [[some 0]] false rfl (by decide)).1

/-- Is the eval result an array at all? -/
def isArr : PyVal → Bool
  | .arr _ => true
  | .scalar _ => false

/-- C7 (amended): for a valid expression whose evaluation broadcasts
element-wise with the grid arrays, evaluating over a grid of shape `(m,n)`
returns an array of shape `(m,n)`.  (The amendment excludes expressions
that mention neither `x` nor `y`, e.g. `"5"`: Python `eval` then returns a
bare scalar, not an `(m,n)` array — see the counterexample.) -/
theorem elementwise_eval_shape (g : Val → Val → Val) (X Y : Arr2)
    (m n : Nat) (hX : isShape X m n) (hY : isShape Y m n) :
    slope_eval (.elementwise g) X Y = .arr (map2 g X Y) ∧
    isShape (map2 g X Y) m n :=
  ⟨by simp [slope_eval, evalCompiled], isShape_map2 g X Y m n hX hY⟩

/-- Witness for C7's amended theorem on a concrete `2×1` grid. -/
theorem elementwise_eval_shape_witness :
    slope_eval (.elementwise combMin) [[some 1], [some 2]] [[some 3], [some 4]]
      = .arr (map2 combMin [[some 1], [some 2]] [[some 3], [some 4]]) ∧
    isShape (map2 combMin [[some 1], [some 2]] [[some 3], [some 4]]) 2 1 :=
  elementwise_eval_shape combMin [[some 1], [some 2]] [[some 3], [some 4]] 2 1
    (by constructor <;> simp) (by constructor <;> simp)

/-- Counterexample to C7 as stated: the expression `"5"` is valid
(compiles, never raises), yet over the `1×1` grid the evaluator returns
the bare scalar `5` — not an array, hence not a field of shape `(1,1)`. -/
theorem scalar_eval_not_grid_shaped :
    isShape [[(some 0 : Val)]] 1 1 ∧
    slope_eval (.scalar (some 5)) [[some 0]] [[some 0]] = .scalar (some 5) ∧
    isArr (slope_eval (.scalar (some 5)) [[some 0]] [[some 0]]) = false :=
  ⟨⟨by simp, by simp⟩, rfl, rfl⟩

/-- C8: the `"Complex Plane"` branch builds exactly the same grid as the
`"Cartesian"` branch for every pair of extents. -/
theorem complex_plane_grid_eq_cartesian :
    ∀ x_max y_max : ℚ, complexPlaneGrid x_max y_max = cartesianGrid x_max y_max :=
  fun _ _ => rfl


/-! ## Claim C6 -/

lemma arange_mem_bounds (start stop st : ℚ) (hst : 0 < st) (r : ℚ)
    (hr : r ∈ arange start stop st) : start ≤ r ∧ r < stop := by
  simp only [arange, List.mem_map, List.mem_range] at hr
  obtain ⟨k, hk, rfl⟩ := hr
  constructor
  · have h0 : (0 : ℚ) ≤ (k : ℚ) * st := mul_nonneg (Nat.cast_nonneg k) hst.le
    linarith
  · have hkz : (k : ℤ) < ⌈(stop - start) / st⌉ := by omega
    have hkq : ((k : ℤ) : ℚ) < (stop - start) / st := Int.lt_ceil.mp hkz
    have hkq2 : (k : ℚ) < (stop - start) / st := by exact_mod_cast hkq
    have hmul := (lt_div_iff₀ hst).mp hkq2
    linarith

lemma centi_mem_polarRadii : (1/100 : ℚ) ∈ polarRadii 5 := by
  simp only [polarRadii, arange, List.mem_map, List.mem_range]
  refine ⟨0, ?_, by norm_num⟩
  have hc : ((5 : ℚ) - 1/100) / gridStep = 499/5 := by norm_num [gridStep]
  rw [hc]
  have hceil : ⌈(499/5 : ℚ)⌉ = 100 := by
    rw [Int.ceil_eq_iff]
    norm_num
  rw [hceil]
  decide

/-- C6 (amended): every Polar-branch sample point `(r·cosθ, r·sinθ)` has
radius exactly `r`, and the radius samples lie in the HALF-OPEN interval
`[0.01, xMax)` — `np.arange(0.01, x_max, step)` includes its start, so
radius `0.01` is attained (see the counterexample), while `xMax` is
excluded. -/
theorem polar_radius_half_open (x_max r : ℚ) (hr : r ∈ polarRadii x_max)
    (θ : ℝ) :
    Real.sqrt ((polarPoint (r : ℝ) θ).1 ^ 2 + (polarPoint (r : ℝ) θ).2 ^ 2)
        = (r : ℝ)
    ∧ 1/100 ≤ r ∧ r < x_max := by
  obtain ⟨hlo, hhi⟩ :=
    arange_mem_bounds (1/100) x_max gridStep (by norm_num [gridStep]) r hr
  have hr0 : (0 : ℝ) ≤ (r : ℝ) := by
    have : (0 : ℚ) ≤ r := le_trans (by norm_num) hlo
    exact_mod_cast this
  refine ⟨?_, hlo, hhi⟩
  have hsum : (polarPoint (r : ℝ) θ).1 ^ 2 + (polarPoint (r : ℝ) θ).2 ^ 2
      = (r : ℝ) ^ 2 := by
    simp only [polarPoint]
    rw [mul_pow, mul_pow, ← mul_add, Real.cos_sq_add_sin_sq, mul_one]
  rw [hsum, Real.sqrt_sq hr0]

/-- Witness for C6's amended theorem: `r = 0.01` is a Polar radius sample
for `xMax = 5`, and it satisfies the half-open bounds. -/
theorem polar_radius_half_open_witness :
    (1/100 : ℚ) ∈ polarRadii 5 ∧ (1/100 ≤ (1/100 : ℚ) ∧ (1/100 : ℚ) < 5) :=
  ⟨centi_mem_polarRadii,
    (polar_radius_half_open 5 (1/100) centi_mem_polarRadii 0).2⟩

/-- Counterexample to C6 as stated: the Polar grid for `xMax = yMax = 5`
contains the sample point with `r = 0.01`, `θ = 0`, whose radius is
exactly `0.01` — NOT strictly greater than `0.01`, so the radii do not lie
in the open interval `(0.01, 5)`. -/
theorem polar_radius_open_interval_cex :
    (1/100 : ℚ) ∈ polarRadii 5 ∧
    Real.sqrt ((polarPoint ((1 : ℝ)/100) 0).1 ^ 2
        + (polarPoint ((1 : ℝ)/100) 0).2 ^ 2) = 1/100 ∧
    ¬ ((1 : ℝ)/100 < 1/100) := by
  refine ⟨centi_mem_polarRadii, ?_, by norm_num⟩
  have h1 : (polarPoint ((1 : ℝ)/100) 0).1 = 1/100 := by simp [polarPoint]
  have h2 : (polarPoint ((1 : ℝ)/100) 0).2 = 0 := by simp [polarPoint]
  rw [h1, h2]
  have h3 : ((1 : ℝ)/100) ^ 2 + (0 : ℝ) ^ 2 = (1/100) ^ 2 := by norm_num
  rw [h3, Real.sqrt_sq (by norm_num)]

/-! ## Claims C9 and C10 -/

lemma foldl_lift_all_some (f : ℚ → ℚ → ℚ) (cf : Val → Val → Val)
    (hcf : ∀ a b : ℚ, cf (some a) (some b) = some (f a b)) :
    ∀ (t : List Val) (x : ℚ), (∀ w ∈ t, w.isSome = true) →
      t.foldl cf (some x) = some ((t.filterMap id).foldl f x) := by
  intro t
  induction t with
  | nil => intro x _; rfl
  | cons w t ih =>
    intro x hall
    obtain ⟨y, rfl⟩ := Option.isSome_iff_exists.mp (hall w (by simp))
    have hfm : (some y :: t).filterMap (id : Val → Val) = y :: t.filterMap id := by
      simp
    simp only [List.foldl_cons, hcf, hfm]
    exact ih (f x y) fun w hw => hall w (by simp [hw])

lemma npMin_eq_finiteMin (l : List Val) (h : ∀ w ∈ l, w.isSome = true) :
    npMin l = finiteMin l := by
  cases l with
  | nil => rfl
  | cons w t =>
    obtain ⟨x, rfl⟩ := Option.isSome_iff_exists.mp (h w (by simp))
    have ht : ∀ w ∈ t, w.isSome = true := fun w hw => h w (by simp [hw])
    show t.foldl combMin (some x) = finiteMin (some x :: t)
    rw [foldl_lift_all_some min combMin (fun a b => rfl) t x ht]
    simp [finiteMin]

lemma npMax_eq_finiteMax (l : List Val) (h : ∀ w ∈ l, w.isSome = true) :
    npMax l = finiteMax l := by
  cases l with
  | nil => rfl
  | cons w t =>
    obtain ⟨x, rfl⟩ := Option.isSome_iff_exists.mp (h w (by simp))
    have ht : ∀ w ∈ t, w.isSome = true := fun w hw => h w (by simp [hw])
    show t.foldl combMax (some x) = finiteMax (some x :: t)
    rw [foldl_lift_all_some max combMax (fun a b => rfl) t x ht]
    simp [finiteMax]

lemma generate_plot_ok_nonstream_inv
    (compileFn : String → Except String EvalOutcome)
    (grid : Except String (Arr2 × Arr2)) (raw : String) (p : SuccessPayload)
    (hp : generate_plot compileFn grid raw false = .ok p) :
    (∀ w ∈ pvList p.V, w.isSome = true) ∧
    p.vmin = npMin (pvList p.V) ∧ p.vmax = npMax (pvList p.V) := by
  unfold generate_plot at hp
  cases hcf : safe_slope_func compileFn (ti84_to_numpy raw) with
  | error e => rw [hcf] at hp; simp at hp
  | ok f =>
    rw [hcf] at hp
    cases grid with
    | error e => simp at hp
    | ok XY =>
      obtain ⟨X, Y⟩ := XY
      dsimp only at hp
      by_cases hnan : allNaN (f X Y) = true
      · rw [if_pos hnan] at hp; simp at hp
      · rw [if_neg hnan] at hp
        simp only [Bool.false_eq_true, if_false] at hp
        by_cases hok : plotSegmentsOk (f X Y) = true
        · rw [if_pos hok] at hp
          injection hp with h
          subst h
          refine ⟨?_, rfl, rfl⟩
          cases hV : f X Y with
          | scalar c => rw [hV] at hok; simp [plotSegmentsOk] at hok
          | arr a =>
            rw [hV] at hok
            simp only [plotSegmentsOk, List.all_eq_true] at hok
            intro w hw
            simp only [hV, pvList, List.mem_flatten] at hw
            obtain ⟨r, hr, hwr⟩ := hw
            exact hok r hr w hwr
        · rw [if_neg hok] at hp; simp at hp

/-- C9: in non-streamline mode every segment alpha
`np.clip(|Δy|/0.25, 0.2, 1.0)` lies in `[0.2, 1.0]` for every finite
slope value; and in any successful non-streamline render the color-scale
bounds `Normalize(vmin=np.min(V), vmax=np.max(V))` equal the minimum and
maximum over the finite entries of V.  (A successful non-streamline
render forces V to be a NaN-free array — a NaN slope would make the
segment alpha NaN, which `ax.plot` rejects, aborting into the failure
payload — and on a NaN-free array the NaN-propagating
`np.min`/`np.max` are exactly the finite extrema.) -/
theorem nonstreamline_alpha_and_finite_bounds
    (v : ℝ) (compileFn : String → Except String EvalOutcome)
    (grid : Except String (Arr2 × Arr2)) (raw : String) (p : SuccessPayload)
    (hp : generate_plot compileFn grid raw false = .ok p) :
    (0.2 ≤ alphaOf v ∧ alphaOf v ≤ 1)
  ∧ (p.vmin = npMin (pvList p.V) ∧ p.vmax = npMax (pvList p.V))
  ∧ (p.vmin = finiteMin (pvList p.V) ∧ p.vmax = finiteMax (pvList p.V)) := by
  obtain ⟨hsome, hmin, hmax⟩ :=
    generate_plot_ok_nonstream_inv compileFn grid raw p hp
  refine ⟨⟨?_, ?_⟩, ⟨hmin, hmax⟩, ?_, ?_⟩
  · simp only [alphaOf, clipR]
    exact le_min (le_max_right _ _) (by norm_num)
  · simp only [alphaOf, clipR]
    exact le_trans (min_le_right _ _) (by norm_num)
  · rw [hmin, npMin_eq_finiteMin _ hsome]
  · rw [hmax, npMax_eq_finiteMax _ hsome]

/-- Witness for C9: a successful non-streamline render of `x` over a
`1×2` grid; alphas checked at slope 0, and the bounds `vmin = 1`,
`vmax = 2` equal both the NaN-propagating and the finite extrema. -/
theorem nonstreamline_alpha_and_finite_bounds_witness :
    (0.2 ≤ alphaOf 0 ∧ alphaOf 0 ≤ 1)
  ∧ ((some (1 : ℚ) : Val) = npMin (pvList (.arr [[some 1, some 2]]))
      ∧ (some (2 : ℚ) : Val) = npMax (pvList (.arr [[some 1, some 2]])))
  ∧ ((some (1 : ℚ) : Val) = finiteMin (pvList (.arr [[some 1, some 2]]))
      ∧ (some (2 : ℚ) : Val) = finiteMax (pvList (.arr [[some 1, some 2]]))) :=
  nonstreamline_alpha_and_finite_bounds 0
    (fun _ => .ok (.elementwise fun a _ => a))
    (.ok ([[some 1, some 2]], [[some 0, some 0]])) "x"
    { V := .arr [[some 1, some 2]], vmin := some 1, vmax := some 2,
      streamlines := false, title := "Slope Field for dy/dx = x" }
    (by decide)

/-- C10: with `U = np.ones_like(V)` fixed to 1, the normalization length
`np.sqrt(U**2 + V**2)` is pointwise `sqrt(1 + v²) ≥ 1` at every finite
slope value `v`, and NaN (never 0) at NaN slopes, so the
`0.25*U/length` division is never a division by zero. -/
theorem direction_vector_length_ge_one :
    (∀ (V : Arr2) (i j : Nat),
      entry (lengthField V) i j = (entry V i j).map (lenPoint (some 1)))
  ∧ (∀ q : ℚ, lenPoint (some 1) (some q)
        = some (Real.sqrt ((1 : ℝ) ^ 2 + (q : ℝ) ^ 2))
      ∧ 1 ≤ Real.sqrt ((1 : ℝ) ^ 2 + (q : ℝ) ^ 2)
      ∧ Real.sqrt ((1 : ℝ) ^ 2 + (q : ℝ) ^ 2) ≠ 0)
  ∧ lenPoint (some 1) none = none := by
  refine ⟨?_, ?_, rfl⟩
  · intro V i j
    simp only [entry, lengthField, ones_like, get?_zipWith, List.get?_map]
    cases hV : V.get? i with
    | none => simp
    | some r =>
      simp only [Option.map_some', Option.some_bind]
      rw [get?_zipWith, List.get?_map]
      cases hr : r.get? j <;> simp [lenPoint]
  · intro q
    have hle : (1 : ℝ) ≤ Real.sqrt ((1 : ℝ) ^ 2 + (q : ℝ) ^ 2) := by
      calc (1 : ℝ) = Real.sqrt 1 := Real.sqrt_one.symm
        _ ≤ Real.sqrt ((1 : ℝ) ^ 2 + (q : ℝ) ^ 2) :=
          Real.sqrt_le_sqrt (by nlinarith [sq_nonneg ((q : ℝ))])
    refine ⟨by simp [lenPoint], hle, ?_⟩
    exact (lt_of_lt_of_le zero_lt_one hle).ne'
